import Mathlib

/-!
# Verification of the School entrance test system core

Shallow embedding of the core logic of the entrance-exam portal:

* `src/src/lib/slotManagement.ts` — time-slot numbering, access codes,
  retest keys, already-attempted check;
* `src/src/lib/evaluation.ts` — the pure answer evaluator and result
  aggregation;
* `src/src/pages/TestTaking.tsx` — violation tracking / auto-submit,
  Fisher–Yates shuffling, and the submission retry loop.

Stateful database interactions are modelled by explicit stores (lists of
rows) passed in and returned; `Math.random()` draws are modelled by an
explicit stream of natural numbers; wall-clock instants are natural
numbers of milliseconds.
-/

namespace EntranceTest

/-! ## Slot numbering (`src/src/lib/slotManagement.ts`) -/

/-- `const SLOT_DURATION_MINUTES = 120`. -/
def SLOT_DURATION_MINUTES : Nat := 120

/-- The slot width in milliseconds, `SLOT_DURATION_MINUTES * 60 * 1000`. -/
def slotDurationMs : Nat := SLOT_DURATION_MINUTES * 60 * 1000

/-- `getSlotNumber`: the source computes
`elapsed = now.getTime() - startOfDay.getTime()` (milliseconds since local
midnight) and returns `Math.floor(elapsed / slotDuration) + 1`.  The
embedding takes the elapsed-milliseconds value as its argument. -/
def getSlotNumber (elapsedMs : Nat) : Nat :=
  elapsedMs / slotDurationMs + 1

/-! ## Result aggregation (`calculateResults` in `src/src/lib/evaluation.ts`) -/

/-- One entry of the `evaluations` array: `isCorrect` is tri-state
(`null` = pending manual review, modelled as `none`). -/
structure Evaluation where
  isCorrect : Option Bool
  marksAwarded : Int
deriving DecidableEq, Repr

/-- The record returned by `calculateResults`. -/
structure Results where
  score : Int
  correctCount : Nat
  wrongCount : Nat
  needsManualReview : Bool
deriving DecidableEq, Repr

/-- The body of the `evaluations.forEach` loop in `calculateResults`:
add the marks, then bump the matching tally (`null` sets the
manual-review flag). -/
def calculateResultsStep (r : Results) (e : Evaluation) : Results :=
  let r := { r with score := r.score + e.marksAwarded }
  match e.isCorrect with
  | some true => { r with correctCount := r.correctCount + 1 }
  | some false => { r with wrongCount := r.wrongCount + 1 }
  | none => { r with needsManualReview := true }

/-- `calculateResults(evaluations)`: fold the `forEach` body over the list,
starting from `score=0, correctCount=0, wrongCount=0,
needsManualReview=false`. -/
def calculateResults (evaluations : List Evaluation) : Results :=
  evaluations.foldl calculateResultsStep ⟨0, 0, 0, false⟩

/-! ## JS string ordering

`Array.prototype.sort()` with no comparator sorts strings by their code
units.  We embed that order as lexicographic comparison of the character
lists.  (For the sorted-lists-equal test performed by the evaluator the
particular linear order is irrelevant: equality of the two sorted lists is
multiset equality for any linear order.) -/

/-- Lexicographic `≤` on character lists. -/
def charListLe : List Char → List Char → Bool
  | [], _ => true
  | _ :: _, [] => false
  | a :: as, b :: bs =>
    if a < b then true
    else if b < a then false
    else charListLe as bs

/-- The default JS string order, as a relation on `String`. -/
def jsStringLe (a b : String) : Prop := charListLe a.data b.data = true

instance : DecidableRel jsStringLe :=
  fun a b => Bool.decEq (charListLe a.data b.data) true

/-! ## Answer evaluator (`evaluateAnswer` in `src/src/lib/evaluation.ts`) -/

/-- `question_type` values from the database schema; `other` stands for any
value hitting the `default:` branch. -/
inductive QuestionType
  | mcq_single
  | mcq_multiple
  | fill_blank
  | true_false
  | numerical
  | short_answer
  | paragraph
  | other
deriving DecidableEq, Repr

/-- The fields of a `questions` row that `evaluateAnswer` reads.
`correct_answers` is stored as a JSON array of strings. -/
structure Question where
  question_type : QuestionType
  correct_answers : List String
  marks : Int
  is_case_sensitive : Bool
deriving DecidableEq, Repr

/-- The `studentAnswer : any` argument: a string (single-choice,
fill-blank, true/false, numerical input), an array of strings
(multi-choice), or JS `undefined` for an unanswered question. -/
inductive StudentAnswer
  | str : String → StudentAnswer
  | arr : List String → StudentAnswer
  | undef
deriving DecidableEq, Repr

/-- JS strict equality `studentAnswer === correctAnswers[0]`: string vs
string compares contents, `undefined === undefined` is true (an absent
answer against an out-of-range index), an array is never strictly equal to
a string or `undefined`. -/
def strictEqStr (ans : StudentAnswer) (c : Option String) : Bool :=
  match ans, c with
  | .str s, some cv => s == cv
  | .undef, none => true
  | _, _ => false

/-- JS `String(x)` coercion: arrays join with commas, `undefined` prints
as `"undefined"`. -/
def jsToString : StudentAnswer → String
  | .str s => s
  | .arr xs => String.intercalate "," xs
  | .undef => "undefined"

/-- `String(correctAnswers[0])` when the index may be out of range. -/
def jsToStringOpt : Option String → String
  | some s => s
  | none => "undefined"

/-- `toLowerCase()` (character-wise lowering). -/
def jsToLower (s : String) : String := ⟨s.data.map Char.toLower⟩

/-- `trim()`: strip whitespace from both ends. -/
def jsTrim (s : String) : String :=
  ⟨((s.data.dropWhile Char.isWhitespace).reverse.dropWhile Char.isWhitespace).reverse⟩

/-- An exact decimal value `mant * 10 ^ exp`, the result of parsing a
decimal literal.  (IEEE-754 rounding of `parseFloat` is abstracted away:
parsed values are kept as exact decimal rationals.) -/
structure DecValue where
  mant : Int
  exp : Int
deriving DecidableEq, Repr

/-- A JS number produced by `parseFloat`: finite, or a signed infinity
from an `Infinity` literal. -/
inductive JsNum
  | fin : DecValue → JsNum
  | inf : Bool → JsNum
deriving DecidableEq, Repr

/-- The exact rational value of a finite parse result. -/
def DecValue.toRat (v : DecValue) : ℚ := (v.mant : ℚ) * (10 : ℚ) ^ v.exp

/-- Numeric equality of two parse results (`===` on the parsed numbers):
finite values are compared exactly after aligning the decimal exponents;
infinities compare by sign. -/
def jsNumEq : JsNum → JsNum → Bool
  | .fin v, .fin w =>
    let m := min v.exp w.exp
    v.mant * 10 ^ (v.exp - m).toNat == w.mant * 10 ^ (w.exp - m).toNat
  | .inf s, .inf t => s == t
  | _, _ => false

/-- Digits to a natural number, most significant first. -/
def digitsToNat (ds : List Char) : Nat :=
  ds.foldl (fun n c => n * 10 + (c.toNat - '0'.toNat)) 0

/-- `parseFloat` on a character list positioned after whitespace and sign:
longest integer-digit run, optional `.` + fraction digits, optional
exponent part (`e`/`E`, optional sign, digits — not consumed if its digits
are missing).  Returns `none` (NaN) when no digit is found. -/
def parseDecimal (cs : List Char) : Option DecValue :=
  let intDigits := cs.takeWhile Char.isDigit
  let rest := cs.dropWhile Char.isDigit
  let fracDigits :=
    match rest with
    | '.' :: r => r.takeWhile Char.isDigit
    | _ => []
  let afterFrac :=
    match rest with
    | '.' :: r => r.dropWhile Char.isDigit
    | _ => rest
  if intDigits.isEmpty && fracDigits.isEmpty then
    none
  else
    let expVal : Int :=
      match afterFrac with
      | 'e' :: '+' :: r | 'E' :: '+' :: r =>
        let eds := r.takeWhile Char.isDigit
        if eds.isEmpty then 0 else (digitsToNat eds : Int)
      | 'e' :: '-' :: r | 'E' :: '-' :: r =>
        let eds := r.takeWhile Char.isDigit
        if eds.isEmpty then 0 else -(digitsToNat eds : Int)
      | 'e' :: r | 'E' :: r =>
        let eds := r.takeWhile Char.isDigit
        if eds.isEmpty then 0 else (digitsToNat eds : Int)
      | _ => 0
    some ⟨(digitsToNat (intDigits ++ fracDigits) : Int),
          expVal - (fracDigits.length : Int)⟩

/-- Does the second character list start with the first? -/
def startsWithChars : List Char → List Char → Bool
  | [], _ => true
  | _ :: _, [] => false
  | a :: as, b :: bs => a == b && startsWithChars as bs

/-- JS `parseFloat(s)`: skip leading whitespace, read an optional sign,
then either an `Infinity` literal or a leading decimal literal; anything
after the parsed portion is ignored; `none` models NaN. -/
def jsParseFloat (s : String) : Option JsNum :=
  let cs := s.data.dropWhile Char.isWhitespace
  let (neg, body) :=
    match cs with
    | '-' :: r => (true, r)
    | '+' :: r => (false, r)
    | r => (false, r)
  if startsWithChars "Infinity".data body then
    some (.inf neg)
  else
    (parseDecimal body).map fun v =>
      .fin (if neg then { v with mant := -v.mant } else v)

/-- The `mcq_multiple` verdict: sort both lists (JS default sort), then
compare lengths and element-wise (`sortedStudent.length ===
sortedCorrect.length && sortedStudent.every((val, idx) => val ===
sortedCorrect[idx])`). -/
def mcqMultipleIsCorrect (correctAnswers xs : List String) : Bool :=
  let sortedStudent := xs.insertionSort jsStringLe
  let sortedCorrect := correctAnswers.insertionSort jsStringLe
  (sortedStudent.length == sortedCorrect.length) &&
    (sortedStudent.zip sortedCorrect).all fun p => p.1 == p.2

/-- The `numerical` verdict: `!isNaN(studentNum) && !isNaN(correctNum) &&
studentNum === correctNum` after `parseFloat` on both sides. -/
def numericalIsCorrect (correctAnswers : List String) (ans : StudentAnswer) :
    Bool :=
  match jsParseFloat (jsToString ans),
        jsParseFloat (jsToStringOpt correctAnswers.head?) with
  | some s, some c => jsNumEq s c
  | _, _ => false

/-- `evaluateAnswer(question, studentAnswer)` from
`src/src/lib/evaluation.ts`, branching on `question.question_type`.
(In the source the `mcq_multiple` branch also guards against
`correct_answers` not being an array; the embedding types it as a list, so
that disjunct is always false.) -/
def evaluateAnswer (question : Question) (studentAnswer : StudentAnswer) :
    Evaluation :=
  let correctAnswers := question.correct_answers
  match question.question_type with
  | .mcq_single =>
    let isCorrectSingle := strictEqStr studentAnswer correctAnswers.head?
    ⟨some isCorrectSingle, if isCorrectSingle then question.marks else 0⟩
  | .mcq_multiple =>
    match studentAnswer with
    | .arr xs =>
      let isCorrectMultiple := mcqMultipleIsCorrect correctAnswers xs
      ⟨some isCorrectMultiple, if isCorrectMultiple then question.marks else 0⟩
    | _ => ⟨some false, 0⟩
  | .fill_blank =>
    let correctFill := correctAnswers.head?
    let isCorrectFill :=
      if question.is_case_sensitive then
        strictEqStr studentAnswer correctFill
      else
        jsTrim (jsToLower (jsToString studentAnswer)) ==
          jsTrim (jsToLower (jsToStringOpt correctFill))
    ⟨some isCorrectFill, if isCorrectFill then question.marks else 0⟩
  | .true_false =>
    let isCorrectTF := strictEqStr studentAnswer correctAnswers.head?
    ⟨some isCorrectTF, if isCorrectTF then question.marks else 0⟩
  | .numerical =>
    let isCorrectNum := numericalIsCorrect correctAnswers studentAnswer
    ⟨some isCorrectNum, if isCorrectNum then question.marks else 0⟩
  | .short_answer => ⟨none, 0⟩
  | .paragraph => ⟨none, 0⟩
  | .other => ⟨some false, 0⟩

/-! ## Store rows and queries (`src/src/lib/slotManagement.ts`)

Database queries are modelled over explicit row lists.  A
`.limit(1).maybeSingle()` lookup, or a plain `.maybeSingle()` over a
column that is `UNIQUE` in the schema (at most one match is possible), is
the first row satisfying the filters; a plain `.maybeSingle()` that can
match several rows is modelled by `maybeSingle` below, which reproduces
its multi-row error. -/

/-- `.maybeSingle()` without a preceding `.limit(1)`: `data` is the row
when exactly one row matches, and `null` otherwise — for zero matches by
definition, and for two or more matches because PostgREST then answers
with error `PGRST116` and a null `data` (a caller that destructures only
`data` cannot tell the two apart). -/
def maybeSingle {α : Type _} (p : α → Bool) (store : List α) : Option α :=
  match store.filter p with
  | [x] => some x
  | _ => none

/-- Submission `status` values allowed by the `submissions_status_check`
constraint (migration `20260101_update_status_check.sql`). -/
inductive SubmissionStatus
  | in_progress
  | completed
  | auto_submitted
  | invalidated_by_retest
deriving DecidableEq, Repr

/-- A `submissions` row as seen by `checkAlreadyAttempted`: the `id` it
selects plus the five filtered columns (no uniqueness constraint relates
them, so several rows may match the same filter). -/
structure SubmissionRow where
  id : String
  test_id : String
  slot_number : Nat
  student_name : String
  father_name : String
  status : SubmissionStatus
deriving DecidableEq, Repr

/-- `checkAlreadyAttempted(testId, slotNumber, studentName, fatherName)`:
select a `submissions` row with all four fields equal and
`status = 'completed'` via `.maybeSingle()` — the query has no
`.limit(1)`, so two or more matching rows make `maybeSingle` error out
with a null `data` — and return `!!existing`. -/
def checkAlreadyAttempted (store : List SubmissionRow) (testId : String)
    (slotNumber : Nat) (studentName fatherName : String) : Bool :=
  (maybeSingle (fun s =>
    s.test_id == testId && s.slot_number == slotNumber &&
      s.student_name == studentName && s.father_name == fatherName &&
      s.status == .completed) store).isSome

/-- A `retest_keys` row, with the fields `validateRetestKey` touches. -/
structure RetestKeyRow where
  id : String
  key : String
  test_id : String
  submission_id : String
  student_name : String
  is_used : Bool
  expires_at : Nat
deriving DecidableEq, Repr

/-- The object returned by `validateRetestKey`; fields the source leaves
out of a branch are `none` / `false`. -/
structure RetestValidation where
  valid : Bool
  retestKeyId : Option String := none
  originalSubmissionId : Option String := none
  studentName : Option String := none
  isMasterKey : Bool := false
deriving DecidableEq, Repr

/-- The master-key literal checked first by `validateRetestKey`. -/
def MASTER_RETEST_KEY : String := "Azneeta-entrance_retest"

/-- `validateRetestKey(key, testId)`: the master-key literal
short-circuits; otherwise select a `retest_keys` row with this `key` and
`test_id`, `is_used = false` and `expires_at > now`; absence means
invalid.  (The lookup is a `.maybeSingle()` filtered on `key`, which is
`UNIQUE` in the schema, so at most one row can match and the first-match
model is exact.) -/
def validateRetestKey (store : List RetestKeyRow) (now : Nat)
    (key testId : String) : RetestValidation :=
  if key == MASTER_RETEST_KEY then
    { valid := true, isMasterKey := true }
  else
    match store.find? fun r =>
        r.key == key && r.test_id == testId && r.is_used == false &&
          decide (now < r.expires_at) with
    | none => { valid := false }
    | some retestKey =>
      { valid := true
        retestKeyId := some retestKey.id
        originalSubmissionId := some retestKey.submission_id
        studentName := some retestKey.student_name }

/-- An `access_codes` row, with the fields `getOrCreateAccessCode`
touches. -/
structure AccessCodeRow where
  slot_id : String
  code : String
  valid_until : Nat
deriving DecidableEq, Repr

/-- The 36-symbol alphabet of `generateAccessCode`. -/
def accessCodeChars : List Char := "ABCDEFGHIJKLMNOPQRSTUVWXYZ0123456789".data

/-- `generateAccessCode()`: six draws of
`chars.charAt(Math.floor(Math.random() * chars.length))`; `Math.random()`
is modelled by an explicit stream, draw `i` picking index `rand i % 36`. -/
def generateAccessCode (rand : Nat → Nat) : String :=
  ⟨(List.range 6).map fun i =>
    accessCodeChars.getD (rand i % accessCodeChars.length) 'A'⟩

/-- `getOrCreateAccessCode(slotId)`: look for a row of this slot with
`valid_until > now` (`.limit(1).maybeSingle()`); if found return its code
and leave the store unchanged; otherwise generate a fresh code and insert
it with `valid_until = now + SLOT_DURATION_MINUTES * 60 * 1000`.  The
`access_codes.code` column is `NOT NULL UNIQUE` (migration
`20251231024742`) and expired rows are never deleted, so the insert is
rejected whenever the generated code is already stored — the function then
does `if (insertError) throw insertError`, modelled as `none`; on success
the new code is persisted and returned. -/
def getOrCreateAccessCode (store : List AccessCodeRow) (now : Nat)
    (rand : Nat → Nat) (slotId : String) :
    Option (String × List AccessCodeRow) :=
  match store.find? fun c => c.slot_id == slotId && decide (now < c.valid_until) with
  | some existingCode => some (existingCode.code, store)
  | none =>
    let code := generateAccessCode rand
    let validUntil := now + SLOT_DURATION_MINUTES * 60 * 1000
    if store.any fun c => c.code == code then
      none
    else
      some (code,
        store ++ [{ slot_id := slotId, code := code, valid_until := validUntil }])

/-! ## The submission retry loop (`handleSubmit` in
`src/src/pages/TestTaking.tsx`) -/

/-- The store's response to one submission-insert attempt. -/
inductive InsertOutcome
  | ok
  | uniqueViolation
  | otherError
deriving DecidableEq, Repr

/-- `` `${studentCode || 'FALLBACK'}-${uniqueSuffix}` ``: the code actually
inserted on attempt `n`; `suffix n` is the fresh
`Date.now().toString().slice(-6)}-${random}` suffix regenerated on that
attempt. -/
def finalStudentCode (studentCode : String) (suffix : Nat → String)
    (attempt : Nat) : String :=
  (if studentCode.isEmpty then "FALLBACK" else studentCode) ++ "-" ++ suffix attempt

/-- The `while (attempt < maxAttempts)` loop of `handleSubmit`, with
`maxAttempts = 3`.  `remaining = 3 - attempt` is the structural fuel, so
the guard `attempt < 3` is `remaining > 0`.  Per iteration:
* insert outcome `ok`: the row with this attempt's code is created and the
  loop exits (`submission = data; break`);
* `uniqueViolation` (`error.code === '23505'`): `attempt++; continue`;
* `otherError`: thrown to the loop's own `catch (err)`, which rethrows
  (hard failure) only `if (attempt === maxAttempts - 1)` and otherwise
  does `attempt++` and iterates again;
* falling out of the loop leaves `submission` null, a hard failure
  (`'Failed to create submission after multiple attempts.'`).
The result is the successful submission's code (or `none`) paired with the
list of submission rows the loop created. -/
def submitLoopAux (outcome : Nat → InsertOutcome) (studentCode : String)
    (suffix : Nat → String) : Nat → Nat → Option String × List String
  | 0, _ => (none, [])
  | remaining + 1, attempt =>
    let fc := finalStudentCode studentCode suffix attempt
    match outcome attempt with
    | .ok => (some fc, [fc])
    | .uniqueViolation => submitLoopAux outcome studentCode suffix remaining (attempt + 1)
    | .otherError =>
      if attempt == 3 - 1 then (none, [])
      else submitLoopAux outcome studentCode suffix remaining (attempt + 1)

/-- The retry loop entered with `attempt = 0` and `maxAttempts = 3`. -/
def handleSubmitInsert (outcome : Nat → InsertOutcome) (studentCode : String)
    (suffix : Nat → String) : Option String × List String :=
  submitLoopAux outcome studentCode suffix 3 0

/-! ## Violation tracking (`src/src/pages/TestTaking.tsx`) -/

/-- The three mutable counters
(`violationCountRef`/`fullscreenExitCountRef`/`tabSwitchCountRef`). -/
structure CheatState where
  violationCount : Nat
  fullscreenExitCount : Nat
  tabSwitchCount : Nat
deriving DecidableEq, Repr

/-- All counters start at 0. -/
def initialCheatState : CheatState := ⟨0, 0, 0⟩

/-- Tracked violations: document visibility loss and fullscreen exit. -/
inductive ViolationEvent
  | tabSwitch
  | fullscreenExit
deriving DecidableEq, Repr

/-- `handleViolation`: bump the combined counter, then auto-submit
(`handleSubmit(true, true)`) iff `fullscreenExitCountRef.current > 2 ||
violationCountRef.current > 2`.  The boolean returned is that trigger. -/
def handleViolation (s : CheatState) : CheatState × Bool :=
  let s := { s with violationCount := s.violationCount + 1 }
  (s, decide (2 < s.fullscreenExitCount) || decide (2 < s.violationCount))

/-- `handleVisibilityChange` (document became hidden) and
`handleFullscreenChange` (fullscreen element lost): bump the per-kind
counter, then run `handleViolation`. -/
def processViolationEvent (s : CheatState) (e : ViolationEvent) :
    CheatState × Bool :=
  match e with
  | .tabSwitch =>
    handleViolation { s with tabSwitchCount := s.tabSwitchCount + 1 }
  | .fullscreenExit =>
    handleViolation { s with fullscreenExitCount := s.fullscreenExitCount + 1 }

/-- Process a list of violation events, recording after each event the
counter state and whether that event triggered the auto-submit. -/
def runViolations : CheatState → List ViolationEvent → List (CheatState × Bool)
  | _, [] => []
  | s, e :: es =>
    let p := processViolationEvent s e
    p :: runViolations p.1 es

/-- `hasMalpractice = forceMalpractice || currentViolationCount > 0` in
`handleSubmit`; an auto-submit triggered by `handleViolation` passes
`forceMalpractice = true`. -/
def hasMalpractice (forceMalpractice : Bool) (violationCount : Nat) : Bool :=
  forceMalpractice || decide (0 < violationCount)

/-! ## Fisher–Yates shuffle (`shuffleArray` / `loadTestData` in
`src/src/pages/TestTaking.tsx`) -/

/-- `[shuffled[i], shuffled[j]] = [shuffled[j], shuffled[i]]`: exchange the
entries at positions `i` and `j` (identity when out of range, which the
loop never produces). -/
def swapAt {α : Type _} (l : List α) (i j : Nat) : List α :=
  match l.get? i, l.get? j with
  | some x, some y => (l.set i y).set j x
  | _, _ => l

/-- The loop `for (let i = shuffled.length - 1; i > 0; i--)` with
`j = Math.floor(Math.random() * (i + 1))`; the random draw for index `i`
is modelled as `rand i % (i + 1)`. -/
def fisherYatesLoop {α : Type _} (rand : Nat → Nat) : Nat → List α → List α
  | 0, l => l
  | i + 1, l => fisherYatesLoop rand i (swapAt l (i + 1) (rand (i + 1) % (i + 2)))

/-- `shuffleArray(array)`: copy the array, then run the Fisher–Yates loop
downwards from `length - 1`. -/
def shuffleArray {α : Type _} (rand : Nat → Nat) (l : List α) : List α :=
  fisherYatesLoop rand (l.length - 1) l

/-- The fields of a session question relevant to `loadTestData`'s
shuffling. -/
structure SessionQuestion where
  id : String
  question_number : Nat
  question_type : QuestionType
  options : List String
deriving DecidableEq, Repr

/-- The per-question option shuffle in `loadTestData`: only
`mcq_single` / `mcq_multiple` questions with more than one option get
their option list shuffled; every other field is kept. -/
def shuffleOptions (rand : Nat → Nat) (q : SessionQuestion) : SessionQuestion :=
  if 1 < q.options.length ∧
      (q.question_type = .mcq_single ∨ q.question_type = .mcq_multiple) then
    { q with options := shuffleArray rand q.options }
  else q

/-- The question list a session displays: `loadTestData` shuffles the
fetched question list, then maps the option shuffle over it
(`randOpts n` is the random stream consumed for the `n`-th question). -/
def loadTestDataQuestions (randQ : Nat → Nat) (randOpts : Nat → Nat → Nat)
    (questionsList : List SessionQuestion) : List SessionQuestion :=
  let shuffledQuestions := shuffleArray randQ questionsList
  shuffledQuestions.mapIdx fun n q => shuffleOptions (randOpts n) q

/-! ## Helper lemmas: the JS string order is a linear order -/

theorem charListLe_total : ∀ as bs, charListLe as bs = true ∨ charListLe bs as = true
  | [], _ => Or.inl rfl
  | _ :: _, [] => Or.inr rfl
  | a :: as, b :: bs => by
    rcases lt_trichotomy a b with h | h | h
    · left; simp [charListLe, h]
    · subst h
      rcases charListLe_total as bs with h2 | h2
      · left; simp [charListLe, h2]
      · right; simp [charListLe, h2]
    · right; simp [charListLe, h, not_lt_of_lt h]

theorem charListLe_trans : ∀ as bs cs, charListLe as bs = true →
    charListLe bs cs = true → charListLe as cs = true
  | [], _, _, _, _ => rfl
  | _ :: _, [], _, h1, _ => by simp [charListLe] at h1
  | _ :: _, _ :: _, [], _, h2 => by simp [charListLe] at h2
  | a :: as, b :: bs, c :: cs, h1, h2 => by
    rcases lt_trichotomy a b with hab | hab | hab
    · rcases lt_trichotomy b c with hbc | hbc | hbc
      · simp [charListLe, lt_trans hab hbc]
      · subst hbc; simp [charListLe, hab]
      · exact absurd h2 (by simp [charListLe, not_lt_of_lt hbc, hbc])
    · subst hab
      rcases lt_trichotomy a c with hac | hac | hac
      · simp [charListLe, hac]
      · subst hac
        simp only [charListLe, lt_irrefl, if_false] at h1 h2 ⊢
        exact charListLe_trans as bs cs h1 h2
      · exact absurd h2 (by simp [charListLe, not_lt_of_lt hac, hac])
    · exact absurd h1 (by simp [charListLe, not_lt_of_lt hab, hab])

theorem charListLe_antisymm : ∀ as bs, charListLe as bs = true →
    charListLe bs as = true → as = bs
  | [], [], _, _ => rfl
  | [], _ :: _, _, h2 => by simp [charListLe] at h2
  | _ :: _, [], h1, _ => by simp [charListLe] at h1
  | a :: as, b :: bs, h1, h2 => by
    rcases lt_trichotomy a b with hab | hab | hab
    · exact absurd h2 (by simp [charListLe, not_lt_of_lt hab, hab])
    · subst hab
      simp only [charListLe, lt_irrefl, if_false] at h1 h2
      rw [charListLe_antisymm as bs h1 h2]
    · exact absurd h1 (by simp [charListLe, not_lt_of_lt hab, hab])

instance : IsTotal String jsStringLe :=
  ⟨fun a b => charListLe_total a.data b.data⟩

instance : IsTrans String jsStringLe :=
  ⟨fun a b c => charListLe_trans a.data b.data c.data⟩

instance : IsAntisymm String jsStringLe :=
  ⟨fun a b h1 h2 => by
    rcases a with ⟨as⟩; rcases b with ⟨bs⟩
    exact congrArg String.mk (charListLe_antisymm as bs h1 h2)⟩

/-! ## Helper lemmas: sorting and the multi-choice verdict -/

theorem insertionSort_eq_iff_perm (l l' : List String) :
    l.insertionSort jsStringLe = l'.insertionSort jsStringLe ↔ l.Perm l' := by
  constructor
  · intro h
    have p1 := (List.perm_insertionSort jsStringLe l).symm
    rw [h] at p1
    exact p1.trans (List.perm_insertionSort jsStringLe l')
  · intro h
    exact List.eq_of_perm_of_sorted
      ((List.perm_insertionSort jsStringLe l).trans
        (h.trans (List.perm_insertionSort jsStringLe l').symm))
      (List.sorted_insertionSort jsStringLe l)
      (List.sorted_insertionSort jsStringLe l')

theorem length_zip_all_eq_iff : ∀ l₁ l₂ : List String,
    ((l₁.length == l₂.length) && ((l₁.zip l₂).all fun p => p.1 == p.2)) = true
      ↔ l₁ = l₂
  | [], [] => by simp
  | [], _ :: _ => by simp
  | _ :: _, [] => by simp
  | a :: as, b :: bs => by
    have ih := length_zip_all_eq_iff as bs
    simp only [Bool.and_eq_true, beq_iff_eq] at ih
    simp only [List.length_cons, List.zip_cons_cons, List.all_cons,
      Bool.and_eq_true, beq_iff_eq, List.cons.injEq]
    constructor
    · rintro ⟨hlen, hab, hall⟩
      exact ⟨hab, ih.mp ⟨by omega, hall⟩⟩
    · rintro ⟨hab, rfl⟩
      exact ⟨rfl, hab, (ih.mpr rfl).2⟩

theorem mcqMultipleIsCorrect_iff_perm (cs xs : List String) :
    mcqMultipleIsCorrect cs xs = true ↔ xs.Perm cs := by
  simp only [mcqMultipleIsCorrect]
  rw [length_zip_all_eq_iff]
  exact insertionSort_eq_iff_perm xs cs

/-! ## Helper lemmas: `calculateResults` -/

/-- Characterisation of the `forEach` fold from an arbitrary
accumulator. -/
theorem calculateResults_foldl (r : Results) (evs : List Evaluation) :
    evs.foldl calculateResultsStep r =
      { score := r.score + (evs.map (·.marksAwarded)).sum
        correctCount :=
          r.correctCount + evs.countP (fun e => decide (e.isCorrect = some true))
        wrongCount :=
          r.wrongCount + evs.countP (fun e => decide (e.isCorrect = some false))
        needsManualReview :=
          r.needsManualReview || evs.any (fun e => decide (e.isCorrect = none)) } := by
  induction evs generalizing r with
  | nil => simp
  | cons e evs ih =>
    rcases e with ⟨c, m⟩
    rcases c with _ | b
    · simp [List.foldl_cons, ih, calculateResultsStep, List.countP_cons,
        add_assoc, add_comm, add_left_comm]
    · cases b <;>
        simp [List.foldl_cons, ih, calculateResultsStep, List.countP_cons,
          add_assoc, add_comm, add_left_comm]

theorem countP_partition_isCorrect (evs : List Evaluation) :
    evs.countP (fun e => decide (e.isCorrect = some true)) +
      evs.countP (fun e => decide (e.isCorrect = some false)) +
      evs.countP (fun e => decide (e.isCorrect = none)) = evs.length := by
  induction evs with
  | nil => rfl
  | cons e evs ih =>
    rcases e with ⟨c, m⟩
    rcases c with _ | b
    · simp [List.countP_cons, ← ih]; omega
    · cases b <;> (simp [List.countP_cons, ← ih]; omega)

/-! ## Helper lemmas: exact decimal equality -/

/-- `jsNumEq` on finite values is exact equality of the represented
rational numbers. -/
theorem jsNumEq_fin_iff (v w : DecValue) :
    jsNumEq (.fin v) (.fin w) = true ↔ v.toRat = w.toRat := by
  rcases v with ⟨mv, ev⟩
  rcases w with ⟨mw, ew⟩
  simp only [jsNumEq, DecValue.toRat, beq_iff_eq]
  set m := min ev ew with hm
  set dv := (ev - m).toNat with hdv
  set dw := (ew - m).toNat with hdw
  have hv : (10 : ℚ) ^ ev = 10 ^ m * 10 ^ dv := by
    rw [← zpow_natCast (10 : ℚ) dv, ← zpow_add₀ (by norm_num : (10 : ℚ) ≠ 0)]
    congr 1
    omega
  have hw : (10 : ℚ) ^ ew = 10 ^ m * 10 ^ dw := by
    rw [← zpow_natCast (10 : ℚ) dw, ← zpow_add₀ (by norm_num : (10 : ℚ) ≠ 0)]
    congr 1
    omega
  constructor
  · intro h
    have h' : ((mv * 10 ^ dv : ℤ) : ℚ) = ((mw * 10 ^ dw : ℤ) : ℚ) := by
      exact_mod_cast congrArg (fun z : ℤ => (z : ℚ)) h
    push_cast at h'
    rw [hv, hw]
    linear_combination (10 : ℚ) ^ m * h'
  · intro h
    rw [hv, hw] at h
    have h2 : ((mv : ℚ) * 10 ^ dv) * 10 ^ m = ((mw : ℚ) * 10 ^ dw) * 10 ^ m := by
      linear_combination h
    have h3 : (mv : ℚ) * 10 ^ dv = (mw : ℚ) * 10 ^ dw :=
      mul_right_cancel₀ (zpow_ne_zero m (by norm_num : (10 : ℚ) ≠ 0)) h2
    exact_mod_cast h3

/-! ## Helper lemmas: violation tracking -/

/-- The counter state after a list of events (first components of
`runViolations`). -/
def violationsFold (s : CheatState) (es : List ViolationEvent) : CheatState :=
  es.foldl (fun st e => (processViolationEvent st e).1) s

theorem processViolationEvent_fst (s : CheatState) (e : ViolationEvent) :
    (processViolationEvent s e).1 =
      match e with
      | .tabSwitch =>
        { s with violationCount := s.violationCount + 1
                 tabSwitchCount := s.tabSwitchCount + 1 }
      | .fullscreenExit =>
        { s with violationCount := s.violationCount + 1
                 fullscreenExitCount := s.fullscreenExitCount + 1 } := by
  cases e <;> rfl

theorem processViolationEvent_snd (s : CheatState) (e : ViolationEvent) :
    (processViolationEvent s e).2 =
      (decide (2 < (processViolationEvent s e).1.fullscreenExitCount) ||
        decide (2 < (processViolationEvent s e).1.violationCount)) := by
  cases e <;> rfl

theorem violationsFold_spec (es : List ViolationEvent) : ∀ s : CheatState,
    violationsFold s es =
      { violationCount := s.violationCount + es.length
        fullscreenExitCount := s.fullscreenExitCount + es.count .fullscreenExit
        tabSwitchCount := s.tabSwitchCount + es.count .tabSwitch } := by
  induction es with
  | nil => intro s; simp [violationsFold]
  | cons e es ih =>
    intro s
    have step : violationsFold s (e :: es) =
        violationsFold (processViolationEvent s e).1 es := by
      simp [violationsFold]
    rw [step, ih]
    cases e <;>
      simp [processViolationEvent, handleViolation, List.count_cons] <;> omega

theorem violationsFold_append (s : CheatState) (es1 es2 : List ViolationEvent) :
    violationsFold s (es1 ++ es2) = violationsFold (violationsFold s es1) es2 := by
  simp [violationsFold, List.foldl_append]

theorem runViolations_append_single (s : CheatState) (es : List ViolationEvent)
    (e : ViolationEvent) :
    runViolations s (es ++ [e]) =
      runViolations s es ++ [processViolationEvent (violationsFold s es) e] := by
  induction es generalizing s with
  | nil => simp [runViolations, violationsFold]
  | cons f es ih =>
    have hfold : violationsFold s (f :: es) =
        violationsFold (processViolationEvent s f).1 es := by
      simp [violationsFold]
    have h1 : runViolations s ((f :: es) ++ [e]) =
        processViolationEvent s f ::
          runViolations (processViolationEvent s f).1 (es ++ [e]) := rfl
    have h2 : runViolations s (f :: es) =
        processViolationEvent s f ::
          runViolations (processViolationEvent s f).1 es := rfl
    rw [h1, h2, ih, hfold]
    rfl

/-! ## Helper lemmas: Fisher–Yates is a permutation -/

theorem cons_set_perm {α : Type _} :
    ∀ (t : List α) (k : Nat) (x a : α), t.get? k = some x →
      (x :: t.set k a).Perm (a :: t)
  | [], k, x, a, h => by simp at h
  | b :: s, 0, x, a, h => by
    simp only [List.get?] at h
    injection h with h
    subst h
    exact List.Perm.swap a b s
  | b :: s, k + 1, x, a, h => by
    simp only [List.get?] at h
    have ih := cons_set_perm s k x a h
    have h1 : (x :: (b :: s).set (k + 1) a) = x :: b :: s.set k a := rfl
    rw [h1]
    exact (List.Perm.swap b x (s.set k a)).trans
      ((ih.cons b).trans (List.Perm.swap a b s))

theorem set_set_perm {α : Type _} :
    ∀ (l : List α) (i j : Nat) (x y : α), l.get? i = some x →
      l.get? j = some y → ((l.set i y).set j x).Perm l
  | [], _, _, _, _, hi, _ => by simp at hi
  | a :: t, 0, 0, x, y, hi, hj => by
    simp only [List.get?] at hi hj
    injection hi with hi
    injection hj with hj
    subst hi
    simp
  | a :: t, 0, j + 1, x, y, hi, hj => by
    simp only [List.get?] at hi hj
    injection hi with hi
    subst hi
    exact cons_set_perm t j y a hj
  | a :: t, i + 1, 0, x, y, hi, hj => by
    simp only [List.get?] at hi hj
    injection hj with hj
    subst hj
    exact cons_set_perm t i x a hi
  | a :: t, i + 1, j + 1, x, y, hi, hj => by
    simp only [List.get?] at hi hj
    exact (set_set_perm t i j x y hi hj).cons a

theorem swapAt_perm {α : Type _} (l : List α) (i j : Nat) :
    (swapAt l i j).Perm l := by
  rcases hi : l.get? i with _ | x <;> rcases hj : l.get? j with _ | y <;>
    have hi' := hi <;> have hj' := hj <;>
    rw [List.get?_eq_getElem?] at hi' hj'
  · have h : swapAt l i j = l := by simp [swapAt, hi', hj']
    rw [h]
  · have h : swapAt l i j = l := by simp [swapAt, hi', hj']
    rw [h]
  · have h : swapAt l i j = l := by simp [swapAt, hi', hj']
    rw [h]
  · have h : swapAt l i j = (l.set i y).set j x := by simp [swapAt, hi', hj']
    rw [h]
    exact set_set_perm l i j x y hi hj

theorem fisherYatesLoop_perm {α : Type _} (rand : Nat → Nat) :
    ∀ (n : Nat) (l : List α), (fisherYatesLoop rand n l).Perm l
  | 0, l => List.Perm.refl l
  | n + 1, l =>
    (fisherYatesLoop_perm rand n _).trans
      (swapAt_perm l (n + 1) (rand (n + 1) % (n + 2)))

theorem shuffleOptions_id (rand : Nat → Nat) (q : SessionQuestion) :
    (shuffleOptions rand q).id = q.id := by
  unfold shuffleOptions
  split <;> rfl

theorem mapIdx_shuffleOptions_map_id (l : List SessionQuestion) :
    ∀ randOpts : Nat → Nat → Nat,
      ((l.mapIdx fun n q => shuffleOptions (randOpts n) q).map (·.id))
        = l.map (·.id) := by
  induction l with
  | nil => intro randOpts; rfl
  | cons q l ih =>
    intro randOpts
    simp only [List.mapIdx_cons, List.map_cons, shuffleOptions_id]
    rw [ih fun n => randOpts (n + 1)]

/-! ## Helper lemmas: the submission retry loop -/

theorem submitLoopAux_none_iff (outcome : Nat → InsertOutcome) (sc : String)
    (suffix : Nat → String) :
    ∀ r attempt, r + attempt = 3 →
      ((submitLoopAux outcome sc suffix r attempt).1 = none ↔
        ∀ a, attempt ≤ a → a < 3 → outcome a ≠ .ok) := by
  intro r
  induction r with
  | zero =>
    intro attempt h
    constructor
    · intro _ a ha ha3
      omega
    · intro _
      rfl
  | succ r ih =>
    intro attempt h
    rcases ho : outcome attempt with _ | _ | _
    · simp only [submitLoopAux, ho]
      constructor
      · intro hc
        exact absurd hc (by simp)
      · intro hall
        exact absurd ho (hall attempt le_rfl (by omega))
    · simp only [submitLoopAux, ho]
      rw [ih (attempt + 1) (by omega)]
      constructor
      · intro hall a ha ha3
        rcases Nat.eq_or_lt_of_le ha with rfl | ha'
        · simp [ho]
        · exact hall a ha' ha3
      · intro hall a ha ha3
        exact hall a (by omega) ha3
    · simp only [submitLoopAux, ho]
      rcases Nat.eq_or_lt_of_le (show attempt ≤ 2 by omega) with h2 | h2
      · rw [if_pos (by simpa using h2)]
        constructor
        · intro _ a ha ha3
          have : a = attempt := by omega
          subst this
          simp [ho]
        · intro _
          rfl
      · rw [if_neg (by simp; omega)]
        rw [ih (attempt + 1) (by omega)]
        constructor
        · intro hall a ha ha3
          rcases Nat.eq_or_lt_of_le ha with rfl | ha'
          · simp [ho]
          · exact hall a ha' ha3
        · intro hall a ha ha3
          exact hall a (by omega) ha3

theorem submitLoopAux_success (outcome : Nat → InsertOutcome) (sc : String)
    (suffix : Nat → String) :
    ∀ r attempt, r + attempt = 3 →
      ∀ a, outcome a = .ok → (∀ b, attempt ≤ b → b < a → outcome b ≠ .ok) →
        attempt ≤ a → a < 3 →
        submitLoopAux outcome sc suffix r attempt =
          (some (finalStudentCode sc suffix a), [finalStudentCode sc suffix a]) := by
  intro r
  induction r with
  | zero =>
    intro attempt h a _ _ ha ha3
    omega
  | succ r ih =>
    intro attempt h a hok hmin ha ha3
    rcases Nat.eq_or_lt_of_le ha with rfl | ha'
    · simp [submitLoopAux, hok]
    · have hne : outcome attempt ≠ .ok := hmin attempt le_rfl ha'
      rcases ho : outcome attempt with _ | _ | _
      · exact absurd ho hne
      · simp only [submitLoopAux, ho]
        exact ih (attempt + 1) (by omega) a hok
          (fun b hb hb2 => hmin b (by omega) hb2) (by omega) ha3
      · simp only [submitLoopAux, ho]
        rw [if_neg (by simp; omega)]
        exact ih (attempt + 1) (by omega) a hok
          (fun b hb hb2 => hmin b (by omega) hb2) (by omega) ha3

theorem submitLoopAux_rows (outcome : Nat → InsertOutcome) (sc : String)
    (suffix : Nat → String) :
    ∀ r attempt,
      ((submitLoopAux outcome sc suffix r attempt).1 = none →
        (submitLoopAux outcome sc suffix r attempt).2 = []) ∧
      (∀ c, (submitLoopAux outcome sc suffix r attempt).1 = some c →
        (submitLoopAux outcome sc suffix r attempt).2 = [c]) := by
  intro r
  induction r with
  | zero =>
    intro attempt
    exact ⟨fun _ => rfl, fun c hc => by simp [submitLoopAux] at hc⟩
  | succ r ih =>
    intro attempt
    rcases ho : outcome attempt with _ | _ | _
    · refine ⟨fun hc => ?_, fun c hc => ?_⟩
      · simp [submitLoopAux, ho] at hc
      · simp only [submitLoopAux, ho] at hc ⊢
        injection hc with hc
        rw [hc]
    · simpa only [submitLoopAux, ho] using ih (attempt + 1)
    · by_cases h2 : (attempt == 3 - 1) = true
      · refine ⟨fun _ => ?_, fun c hc => ?_⟩
        · simp [submitLoopAux, ho, h2]
        · simp [submitLoopAux, ho, h2] at hc
      · simp only [submitLoopAux, ho, h2]
        simpa only [Bool.false_eq_true, if_false] using ih (attempt + 1)

/-! ## Helper lemma: `maybeSingle` -/

theorem maybeSingle_isSome_iff {α : Type _} (p : α → Bool) (l : List α) :
    (maybeSingle p l).isSome = true ↔ l.countP p = 1 := by
  rw [List.countP_eq_length_filter]
  unfold maybeSingle
  rcases hf : l.filter p with _ | ⟨x, _ | ⟨y, t⟩⟩ <;> simp [hf]

/-! ## Helper lemma: slot windows -/

/-- Instants inside window `k` (counted from local midnight) all get slot
number `k + 1`. -/
theorem getSlotNumber_of_window {k t : Nat}
    (h1 : k * slotDurationMs ≤ t) (h2 : t < (k + 1) * slotDurationMs) :
    getSlotNumber t = k + 1 := by
  have : t / slotDurationMs = k := Nat.div_eq_of_lt_le h1 h2
  simp [getSlotNumber, this]

/-! ## Claim theorems -/

/-- Claim C3: `getSlotNumber` returns
`floor(elapsedMsSinceLocalMidnight / (120*60*1000)) + 1`; any two instants
inside the same 120-minute window since local midnight get the same slot
number, and an instant in the immediately following window gets a slot
number exactly one larger. -/
theorem getSlotNumber_spec :
    (∀ t : Nat, getSlotNumber t = t / (120 * 60 * 1000) + 1) ∧
    (∀ k t1 t2 : Nat, k * slotDurationMs ≤ t1 → t1 < (k + 1) * slotDurationMs →
      k * slotDurationMs ≤ t2 → t2 < (k + 1) * slotDurationMs →
      getSlotNumber t1 = getSlotNumber t2) ∧
    (∀ k t1 t2 : Nat, k * slotDurationMs ≤ t1 → t1 < (k + 1) * slotDurationMs →
      (k + 1) * slotDurationMs ≤ t2 → t2 < (k + 2) * slotDurationMs →
      getSlotNumber t2 = getSlotNumber t1 + 1) := by
  refine ⟨fun t => rfl, ?_, ?_⟩
  · intro k t1 t2 h1 h2 h3 h4
    rw [getSlotNumber_of_window h1 h2, getSlotNumber_of_window h3 h4]
  · intro k t1 t2 h1 h2 h3 h4
    rw [getSlotNumber_of_window h1 h2,
      getSlotNumber_of_window (k := k + 1) h3 h4]

/-- Witness for C3 at concrete instants: 100 ms and 7199999 ms after
midnight share slot 1, and 7200005 ms is exactly one slot later. -/
theorem getSlotNumber_spec_witness :
    getSlotNumber 100 = getSlotNumber 7199999 ∧
    getSlotNumber 7200005 = getSlotNumber 100 + 1 :=
  ⟨getSlotNumber_spec.2.1 0 100 7199999 (by decide) (by decide) (by decide)
      (by decide),
   getSlotNumber_spec.2.2 0 100 7200005 (by decide) (by decide) (by decide)
      (by decide)⟩

/-- Claim C4: `calculateResults` sums `marksAwarded` into `score`, counts
`isCorrect === true` rows into `correctCount` and `isCorrect === false`
rows into `wrongCount`, sets `needsManualReview` iff some evaluation has a
`null` verdict, and the three tallies partition the evaluation list. -/
theorem calculateResults_spec (evs : List Evaluation) :
    (calculateResults evs).score = (evs.map (·.marksAwarded)).sum ∧
    (calculateResults evs).correctCount
      = evs.countP (fun e => decide (e.isCorrect = some true)) ∧
    (calculateResults evs).wrongCount
      = evs.countP (fun e => decide (e.isCorrect = some false)) ∧
    ((calculateResults evs).needsManualReview = true ↔
      ∃ e ∈ evs, e.isCorrect = none) ∧
    (calculateResults evs).correctCount + (calculateResults evs).wrongCount +
      evs.countP (fun e => decide (e.isCorrect = none)) = evs.length := by
  unfold calculateResults
  rw [calculateResults_foldl]
  refine ⟨by simp, by simp, by simp, ?_, ?_⟩
  · simp [List.any_eq_true]
  · simpa using countP_partition_isCorrect evs

/-- Claim C8 (amended): `checkAlreadyAttempted` returns `true` iff exactly
one submission row with status exactly `completed` (not `in_progress`,
`auto_submitted`, or `invalidated_by_retest`) matches the given test id,
slot number, student name, and father name: with no matching row it
returns `false`, and with two or more matching rows the underlying
`.maybeSingle()` lookup — issued without `.limit(1)` — errors out with a
null `data`, so it also returns `false`. -/
theorem checkAlreadyAttempted_spec (store : List SubmissionRow)
    (testId : String) (slotNumber : Nat) (studentName fatherName : String) :
    (checkAlreadyAttempted store testId slotNumber studentName fatherName = true ↔
      store.countP (fun s => decide (s.test_id = testId ∧
        s.slot_number = slotNumber ∧ s.student_name = studentName ∧
        s.father_name = fatherName ∧
        s.status = SubmissionStatus.completed)) = 1) ∧
    ((¬ ∃ s ∈ store, s.test_id = testId ∧ s.slot_number = slotNumber ∧
        s.student_name = studentName ∧ s.father_name = fatherName ∧
        s.status = SubmissionStatus.completed) →
      checkAlreadyAttempted store testId slotNumber studentName fatherName
        = false) ∧
    (2 ≤ store.countP (fun s => decide (s.test_id = testId ∧
        s.slot_number = slotNumber ∧ s.student_name = studentName ∧
        s.father_name = fatherName ∧
        s.status = SubmissionStatus.completed)) →
      checkAlreadyAttempted store testId slotNumber studentName fatherName
        = false) ∧
    (1 ≤ store.countP (fun s => decide (s.test_id = testId ∧
        s.slot_number = slotNumber ∧ s.student_name = studentName ∧
        s.father_name = fatherName ∧
        s.status = SubmissionStatus.completed)) ↔
      ∃ s ∈ store, s.test_id = testId ∧ s.slot_number = slotNumber ∧
        s.student_name = studentName ∧ s.father_name = fatherName ∧
        s.status = SubmissionStatus.completed) := by
  have hpred : (fun s : SubmissionRow =>
      s.test_id == testId && s.slot_number == slotNumber &&
        s.student_name == studentName && s.father_name == fatherName &&
        s.status == SubmissionStatus.completed)
      = (fun s => decide (s.test_id = testId ∧ s.slot_number = slotNumber ∧
          s.student_name = studentName ∧ s.father_name = fatherName ∧
          s.status = SubmissionStatus.completed)) := by
    funext s
    rw [Bool.eq_iff_iff]
    simp [and_assoc]
  have hmain : checkAlreadyAttempted store testId slotNumber studentName
      fatherName = true ↔
      store.countP (fun s => decide (s.test_id = testId ∧
        s.slot_number = slotNumber ∧ s.student_name = studentName ∧
        s.father_name = fatherName ∧
        s.status = SubmissionStatus.completed)) = 1 := by
    unfold checkAlreadyAttempted
    rw [maybeSingle_isSome_iff, hpred]
  refine ⟨hmain, ?_, ?_, ?_⟩
  · intro hno
    have h0 : store.countP (fun s => decide (s.test_id = testId ∧
        s.slot_number = slotNumber ∧ s.student_name = studentName ∧
        s.father_name = fatherName ∧
        s.status = SubmissionStatus.completed)) = 0 := by
      rw [List.countP_eq_zero]
      intro s hs
      simp only [decide_eq_true_eq]
      exact fun hc => hno ⟨s, hs, hc⟩
    cases hb : checkAlreadyAttempted store testId slotNumber studentName
        fatherName
    · rfl
    · have h1 := hmain.mp hb
      omega
  · intro h2
    cases hb : checkAlreadyAttempted store testId slotNumber studentName
        fatherName
    · rfl
    · have h1 := hmain.mp hb
      omega
  · constructor
    · intro h
      obtain ⟨s, hs, hp⟩ := List.countP_pos_iff.mp h
      exact ⟨s, hs, of_decide_eq_true hp⟩
    · rintro ⟨s, hs, hp⟩
      exact List.countP_pos_iff.mpr ⟨s, hs, decide_eq_true hp⟩

/-- Counterexample to C8 as stated: with two completed submissions
matching the same (test, slot, name, father-name) tuple — a state nothing
in the schema rules out, reachable e.g. through two concurrent sessions of
the same student in one slot — a matching completed row exists, yet
`checkAlreadyAttempted` returns `false`: the no-`limit(1)` `maybeSingle`
errors on the two rows and the caller reads a null `data`. -/
theorem checkAlreadyAttempted_counterexample :
    (∃ s ∈ ([⟨"s1", "t", 1, "S", "F", .completed⟩,
             ⟨"s2", "t", 1, "S", "F", .completed⟩] : List SubmissionRow),
      s.test_id = "t" ∧ s.slot_number = 1 ∧ s.student_name = "S" ∧
        s.father_name = "F" ∧ s.status = SubmissionStatus.completed) ∧
    checkAlreadyAttempted
      ([⟨"s1", "t", 1, "S", "F", .completed⟩,
        ⟨"s2", "t", 1, "S", "F", .completed⟩] : List SubmissionRow)
      "t" 1 "S" "F" = false := by
  decide

/-- Witness for C8: a store with exactly one matching completed row (next
to an `in_progress` one) yields `true`, and a store whose only row for the
tuple is `auto_submitted` yields `false`. -/
theorem checkAlreadyAttempted_spec_witness :
    checkAlreadyAttempted
      ([⟨"s1", "t", 1, "S", "F", .completed⟩,
        ⟨"s2", "t", 1, "S", "F", .in_progress⟩] : List SubmissionRow)
      "t" 1 "S" "F" = true ∧
    checkAlreadyAttempted
      ([⟨"s3", "t", 1, "S", "F", .auto_submitted⟩] : List SubmissionRow)
      "t" 1 "S" "F" = false :=
  ⟨(checkAlreadyAttempted_spec
      ([⟨"s1", "t", 1, "S", "F", .completed⟩,
        ⟨"s2", "t", 1, "S", "F", .in_progress⟩] : List SubmissionRow)
      "t" 1 "S" "F").1.mpr (by decide),
   (checkAlreadyAttempted_spec
      ([⟨"s3", "t", 1, "S", "F", .auto_submitted⟩] : List SubmissionRow)
      "t" 1 "S" "F").2.1 (by decide)⟩

/-- Claim C10: `shuffleArray` returns a permutation of its input — same
length, same multiset of elements (the input list itself is untouched: the
embedding is pure and the source copies the array before swapping) — and
consequently the shuffled session question list of `loadTestData` carries
exactly the test's question ids. -/
theorem shuffleArray_spec (α : Type) [DecidableEq α] (rand randQ : Nat → Nat)
    (randOpts : Nat → Nat → Nat) (l : List α) (qs : List SessionQuestion) :
    (shuffleArray rand l).Perm l ∧
    (shuffleArray rand l).length = l.length ∧
    (∀ a : α, (shuffleArray rand l).count a = l.count a) ∧
    ((loadTestDataQuestions randQ randOpts qs).map (·.id)).Perm
      (qs.map (·.id)) := by
  have hp : (shuffleArray rand l).Perm l :=
    fisherYatesLoop_perm rand (l.length - 1) l
  refine ⟨hp, hp.length_eq, fun a => hp.count_eq a, ?_⟩
  unfold loadTestDataQuestions
  rw [mapIdx_shuffleOptions_map_id (shuffleArray randQ qs) randOpts]
  exact (fisherYatesLoop_perm randQ (qs.length - 1) qs).map (·.id)

/-- Claim C7: `validateRetestKey` short-circuits on the master-key literal
without consulting the store; for any other key it is valid iff the store
holds a row with that key, bound to the given test, unused, and expiring
strictly in the future, in which case the result carries that row's id,
original submission id and student name; otherwise it is invalid. -/
theorem validateRetestKey_spec (store : List RetestKeyRow) (now : Nat)
    (key testId : String) :
    (key = MASTER_RETEST_KEY →
      validateRetestKey store now key testId
        = { valid := true, isMasterKey := true } ∧
      ∀ (store2 : List RetestKeyRow) (now2 : Nat),
        validateRetestKey store2 now2 key testId
          = validateRetestKey store now key testId) ∧
    (key ≠ MASTER_RETEST_KEY →
      ((validateRetestKey store now key testId).valid = true ↔
        ∃ r ∈ store, r.key = key ∧ r.test_id = testId ∧ r.is_used = false ∧
          now < r.expires_at) ∧
      ((validateRetestKey store now key testId).valid = true →
        ∃ r ∈ store, r.key = key ∧ r.test_id = testId ∧ r.is_used = false ∧
          now < r.expires_at ∧
          validateRetestKey store now key testId =
            { valid := true, retestKeyId := some r.id,
              originalSubmissionId := some r.submission_id,
              studentName := some r.student_name }) ∧
      ((¬ ∃ r ∈ store, r.key = key ∧ r.test_id = testId ∧ r.is_used = false ∧
          now < r.expires_at) →
        validateRetestKey store now key testId = { valid := false })) := by
  constructor
  · intro hk
    subst hk
    exact ⟨by simp [validateRetestKey], fun store2 now2 => by
      simp [validateRetestKey]⟩
  · intro hk
    have hk' : (key == MASTER_RETEST_KEY) = false := by simpa using hk
    rcases hfind : store.find? (fun r => r.key == key && r.test_id == testId &&
        r.is_used == false && decide (now < r.expires_at)) with _ | r
    · have hval : validateRetestKey store now key testId = { valid := false } := by
        unfold validateRetestKey
        rw [if_neg (show ¬ ((key == MASTER_RETEST_KEY) = true) by simp [hk']), hfind]
      rw [hval]
      rw [List.find?_eq_none] at hfind
      refine ⟨?_, by simp, fun _ => rfl⟩
      constructor
      · intro h
        exact absurd h (by simp)
      · rintro ⟨r, hr, h1, h2, h3, h4⟩
        exact absurd (by simp [h1, h2, h3, h4]) (hfind r hr)
    · have hval : validateRetestKey store now key testId =
          { valid := true, retestKeyId := some r.id,
            originalSubmissionId := some r.submission_id,
            studentName := some r.student_name } := by
        unfold validateRetestKey
        rw [if_neg (show ¬ ((key == MASTER_RETEST_KEY) = true) by simp [hk']), hfind]
      have hmem := List.mem_of_find?_eq_some hfind
      have hp := List.find?_some hfind
      simp only [Bool.and_eq_true, beq_iff_eq, decide_eq_true_eq] at hp
      obtain ⟨⟨⟨h1, h2⟩, h3⟩, h4⟩ := hp
      rw [hval]
      refine ⟨⟨fun _ => ⟨r, hmem, h1, h2, h3, h4⟩, fun _ => rfl⟩, ?_, ?_⟩
      · intro _
        exact ⟨r, hmem, h1, h2, h3, h4, rfl⟩
      · intro hno
        exact absurd ⟨r, hmem, h1, h2, h3, h4⟩ hno

/-- Witness for C7: the master key validates against an empty store, and a
matching unused, unexpired row validates an ordinary key. -/
theorem validateRetestKey_spec_witness :
    validateRetestKey [] 0 MASTER_RETEST_KEY "t1"
      = { valid := true, isMasterKey := true } ∧
    (validateRetestKey
        [{ id := "k1", key := "ABCD1234", test_id := "t1", submission_id := "s1",
           student_name := "N", is_used := false, expires_at := 10 }]
        5 "ABCD1234" "t1").valid = true :=
  ⟨((validateRetestKey_spec [] 0 MASTER_RETEST_KEY "t1").1 rfl).1,
   ((validateRetestKey_spec
        [{ id := "k1", key := "ABCD1234", test_id := "t1", submission_id := "s1",
           student_name := "N", is_used := false, expires_at := 10 }]
        5 "ABCD1234" "t1").2 (by decide)).1.mpr
     ⟨{ id := "k1", key := "ABCD1234", test_id := "t1", submission_id := "s1",
        student_name := "N", is_used := false, expires_at := 10 },
      List.mem_cons_self _ _, rfl, rfl, rfl, by decide⟩⟩

/-- Claim C9 (amended): a code with `validUntil` strictly in the future is
returned unchanged with the store untouched, so two calls within the
validity window return the identical code; when no valid code exists for
the slot, a fresh 6-character code over the 36-symbol uppercase
alphanumeric alphabet is generated — if it collides with any stored code
the insert violates the `UNIQUE(code)` constraint and the error is thrown
to the caller (nothing persisted, nothing returned), and otherwise it is
persisted with `validUntil = now + 120 minutes` and returned; hence every
code the call does return after expiry differs from every previously
stored code, in particular from the expired one. -/
theorem getOrCreateAccessCode_spec (store : List AccessCodeRow)
    (now now2 : Nat) (rand rand2 : Nat → Nat) (slotId : String) :
    (∀ c : AccessCodeRow,
      store.find? (fun c => c.slot_id == slotId && decide (now < c.valid_until))
          = some c →
      getOrCreateAccessCode store now rand slotId = some (c.code, store)) ∧
    ((∀ c ∈ store, c.slot_id = slotId → c.valid_until ≤ now) →
      ((∀ c ∈ store, c.code ≠ generateAccessCode rand) →
        getOrCreateAccessCode store now rand slotId =
          some (generateAccessCode rand,
            store ++ [{ slot_id := slotId, code := generateAccessCode rand,
                        valid_until := now + SLOT_DURATION_MINUTES * 60 * 1000 }])) ∧
      (getOrCreateAccessCode store now rand slotId = none ↔
        ∃ c ∈ store, c.code = generateAccessCode rand) ∧
      (∀ code store2,
        getOrCreateAccessCode store now rand slotId = some (code, store2) →
        ∀ c ∈ store, code ≠ c.code)) ∧
    ((∀ c ∈ store, c.slot_id = slotId → c.valid_until ≤ now) →
      (∀ c ∈ store, c.code ≠ generateAccessCode rand) →
      now ≤ now2 → now2 < now + SLOT_DURATION_MINUTES * 60 * 1000 →
      getOrCreateAccessCode
          (store ++ [{ slot_id := slotId, code := generateAccessCode rand,
                       valid_until := now + SLOT_DURATION_MINUTES * 60 * 1000 }])
          now2 rand2 slotId
        = some (generateAccessCode rand,
            store ++ [{ slot_id := slotId, code := generateAccessCode rand,
                        valid_until := now + SLOT_DURATION_MINUTES * 60 * 1000 }])) ∧
    ((generateAccessCode rand).length = 6 ∧
      ∀ ch ∈ (generateAccessCode rand).data, ch ∈ accessCodeChars) := by
  have hshape : (generateAccessCode rand).length = 6 ∧
      ∀ ch ∈ (generateAccessCode rand).data, ch ∈ accessCodeChars := by
    constructor
    · simp [generateAccessCode, String.length]
    · intro ch hch
      simp only [generateAccessCode, List.mem_map, List.mem_range] at hch
      obtain ⟨i, _, rfl⟩ := hch
      have hk : rand i % accessCodeChars.length < accessCodeChars.length :=
        Nat.mod_lt _ (by decide)
      rw [List.getD_eq_getElem accessCodeChars 'A' hk]
      exact List.getElem_mem hk
  refine ⟨?_, ?_, ?_, hshape⟩
  · intro c hc
    simp [getOrCreateAccessCode, hc]
  · intro hall
    have hfind : store.find?
        (fun c => c.slot_id == slotId && decide (now < c.valid_until)) = none := by
      rw [List.find?_eq_none]
      intro c hc
      simp only [Bool.and_eq_true, beq_iff_eq, decide_eq_true_eq, not_and]
      intro hs
      have := hall c hc hs
      omega
    refine ⟨?_, ?_, ?_⟩
    · intro hfresh
      have hany : store.any (fun c => c.code == generateAccessCode rand)
          = false := by
        rw [Bool.eq_false_iff, Ne, List.any_eq_true]
        rintro ⟨c, hc, hcc⟩
        exact hfresh c hc (by simpa using hcc)
      simp [getOrCreateAccessCode, hfind, hany]
    · by_cases hany : store.any (fun c => c.code == generateAccessCode rand)
          = true
      · have hres : getOrCreateAccessCode store now rand slotId = none := by
          simp [getOrCreateAccessCode, hfind, hany]
        rw [hres]
        obtain ⟨c, hc, hcc⟩ := List.any_eq_true.mp hany
        exact iff_of_true rfl ⟨c, hc, by simpa using hcc⟩
      · have hany' : store.any (fun c => c.code == generateAccessCode rand)
            = false := by
          simpa using hany
        have hres : getOrCreateAccessCode store now rand slotId =
            some (generateAccessCode rand,
              store ++ [{ slot_id := slotId, code := generateAccessCode rand,
                          valid_until :=
                            now + SLOT_DURATION_MINUTES * 60 * 1000 }]) := by
          simp [getOrCreateAccessCode, hfind, hany']
        rw [hres]
        refine iff_of_false (by simp) ?_
        rintro ⟨c, hc, hcc⟩
        exact hany (List.any_eq_true.mpr ⟨c, hc, by simpa using hcc⟩)
    · intro code store2 hsucc c hc
      by_cases hany : store.any (fun c => c.code == generateAccessCode rand)
          = true
      · have hres : getOrCreateAccessCode store now rand slotId = none := by
          simp [getOrCreateAccessCode, hfind, hany]
        rw [hres] at hsucc
        exact absurd hsucc (by simp)
      · have hany' : store.any (fun c => c.code == generateAccessCode rand)
            = false := by
          simpa using hany
        have hres : getOrCreateAccessCode store now rand slotId =
            some (generateAccessCode rand,
              store ++ [{ slot_id := slotId, code := generateAccessCode rand,
                          valid_until :=
                            now + SLOT_DURATION_MINUTES * 60 * 1000 }]) := by
          simp [getOrCreateAccessCode, hfind, hany']
        rw [hres] at hsucc
        simp only [Option.some_inj, Prod.mk.injEq] at hsucc
        obtain ⟨hcode, -⟩ := hsucc
        rw [← hcode]
        intro hbad
        exact hany (List.any_eq_true.mpr ⟨c, hc, by simp [hbad]⟩)
  · intro hall hfresh h1 h2
    have hfindstore : store.find?
        (fun c => c.slot_id == slotId && decide (now2 < c.valid_until)) = none := by
      rw [List.find?_eq_none]
      intro c hc
      simp only [Bool.and_eq_true, beq_iff_eq, decide_eq_true_eq, not_and]
      intro hs
      have := hall c hc hs
      omega
    have hp : (fun c : AccessCodeRow =>
        c.slot_id == slotId && decide (now2 < c.valid_until))
          ({ slot_id := slotId, code := generateAccessCode rand,
             valid_until := now + SLOT_DURATION_MINUTES * 60 * 1000 } : AccessCodeRow)
        = true := by
      simp [h2]
    have hfind2 :
        (store ++
            [({ slot_id := slotId, code := generateAccessCode rand,
                valid_until := now + SLOT_DURATION_MINUTES * 60 * 1000 } :
              AccessCodeRow)]).find?
          (fun c => c.slot_id == slotId && decide (now2 < c.valid_until))
          = some ({ slot_id := slotId, code := generateAccessCode rand,
                    valid_until := now + SLOT_DURATION_MINUTES * 60 * 1000 } :
                  AccessCodeRow) := by
      rw [List.find?_append, hfindstore, Option.none_or]
      exact List.find?_cons_of_pos _ hp
    simp [getOrCreateAccessCode, hfind2]

/-- Counterexample to C9 as stated: with the expired code `"AAAAAA"` still
stored for the slot and a random stream re-emitting the same six indices,
the call after expiry neither persists nor returns a code at all — the
regenerated `"AAAAAA"` violates `UNIQUE(code)` and the insert error is
thrown ("a new code is generated …, persisted, and returned" fails). -/
theorem getOrCreateAccessCode_counterexample :
    (5 : Nat) ≤ 10 ∧
    generateAccessCode (fun _ => 0) = "AAAAAA" ∧
    getOrCreateAccessCode
        [{ slot_id := "s", code := "AAAAAA", valid_until := 5 }]
        10 (fun _ => 0) "s" = none := by
  exact ⟨by omega, rfl, rfl⟩

/-- Witness for C9 at concrete stores: a first call mints and persists
`"AAAAAA"`, a later call inside the validity window returns the identical
code with the store unchanged, and a post-expiry call that succeeds
returns a code different from the stored expired one. -/
theorem getOrCreateAccessCode_spec_witness :
    getOrCreateAccessCode [] 0 (fun _ => 0) "s"
      = some ("AAAAAA", [{ slot_id := "s", code := "AAAAAA", valid_until := 7200000 }]) ∧
    getOrCreateAccessCode
        [{ slot_id := "s", code := "AAAAAA", valid_until := 7200000 }]
        100 (fun _ => 1) "s"
      = some ("AAAAAA", [{ slot_id := "s", code := "AAAAAA", valid_until := 7200000 }]) ∧
    (∀ c ∈ [({ slot_id := "s", code := "AAAAAA", valid_until := 5 } :
        AccessCodeRow)], "BBBBBB" ≠ c.code) := by
  refine ⟨?_, ?_, ?_⟩
  · have h := ((getOrCreateAccessCode_spec [] 0 0 (fun _ => 0) (fun _ => 0) "s").2.1
      (by intro c hc; simp at hc)).1 (by intro c hc; simp at hc)
    rw [h]
    rfl
  · have h := (getOrCreateAccessCode_spec
        [{ slot_id := "s", code := "AAAAAA", valid_until := 7200000 }]
        100 0 (fun _ => 1) (fun _ => 0) "s").1
      { slot_id := "s", code := "AAAAAA", valid_until := 7200000 } (by decide)
    rw [h]
  · exact ((getOrCreateAccessCode_spec
        [{ slot_id := "s", code := "AAAAAA", valid_until := 5 }]
        10 0 (fun _ => 1) (fun _ => 0) "s").2.1
      (by decide)).2.2 "BBBBBB"
      [{ slot_id := "s", code := "AAAAAA", valid_until := 5 },
       { slot_id := "s", code := "BBBBBB", valid_until := 7200010 }]
      (by decide)

/-- Claim C1 (amended): the Submission insert is attempted at most 3
times, each attempt carrying a fresh random+timestamp suffix; the first
successful insert ends the loop having created exactly that one row; a
unique-constraint violation always retries, and any other insert error
also leads to a retry unless it strikes the final (3rd) attempt, where it
aborts; exhausting all attempts is a hard failure with no submission row
created by the failed path. -/
theorem handleSubmit_retry_spec (outcome : Nat → InsertOutcome) (sc : String)
    (suffix : Nat → String) :
    (∀ a, outcome a = .ok → (∀ b, b < a → outcome b ≠ .ok) → a < 3 →
      handleSubmitInsert outcome sc suffix
        = (some (finalStudentCode sc suffix a), [finalStudentCode sc suffix a])) ∧
    ((handleSubmitInsert outcome sc suffix).1 = none ↔
      ∀ a, a < 3 → outcome a ≠ .ok) ∧
    ((handleSubmitInsert outcome sc suffix).1 = none →
      (handleSubmitInsert outcome sc suffix).2 = []) ∧
    (∀ c, (handleSubmitInsert outcome sc suffix).1 = some c →
      (handleSubmitInsert outcome sc suffix).2 = [c]) := by
  refine ⟨?_, ?_, (submitLoopAux_rows outcome sc suffix 3 0).1,
    (submitLoopAux_rows outcome sc suffix 3 0).2⟩
  · intro a hok hmin ha3
    exact submitLoopAux_success outcome sc suffix 3 0 rfl a hok
      (fun b _ hb => hmin b hb) (Nat.zero_le a) ha3
  · have h := submitLoopAux_none_iff outcome sc suffix 3 0 rfl
    constructor
    · intro hn a ha
      exact (h.mp hn) a (Nat.zero_le a) ha
    · intro hall
      exact h.mpr fun a _ ha => hall a ha

/-- Counterexample to C1 as stated: an insert error that is not a
unique-constraint violation on the first attempt does not abort the loop —
the loop retries, and the second attempt succeeds (so the path ends in a
created row, not an immediate failure). -/
theorem handleSubmit_otherError_retries :
    handleSubmitInsert (fun n => if n == 0 then .otherError else .ok) "SC"
        (fun _ => "X")
      = (some (finalStudentCode "SC" (fun _ => "X") 1),
         [finalStudentCode "SC" (fun _ => "X") 1]) := rfl

/-- Witness for C1: uniqueness conflicts on attempts 1 and 2 with success
on attempt 3 create exactly one row carrying the 3rd suffix; conflicts on
all attempts end with no row. -/
theorem handleSubmit_retry_spec_witness :
    handleSubmitInsert (fun n => if n < 2 then .uniqueViolation else .ok) "SC"
        (fun _ => "X")
      = (some (finalStudentCode "SC" (fun _ => "X") 2),
         [finalStudentCode "SC" (fun _ => "X") 2]) ∧
    (handleSubmitInsert (fun _ => .uniqueViolation) "SC" (fun _ => "X")).1
      = none ∧
    (handleSubmitInsert (fun _ => .uniqueViolation) "SC" (fun _ => "X")).2
      = [] := by
  have hnone : (handleSubmitInsert (fun _ => .uniqueViolation) "SC"
      (fun _ => "X")).1 = none :=
    (handleSubmit_retry_spec (fun _ => .uniqueViolation) "SC" (fun _ => "X")).2.1.mpr
      (fun a _ h => InsertOutcome.noConfusion h)
  refine ⟨?_, hnone, ?_⟩
  · exact (handleSubmit_retry_spec (fun n => if n < 2 then .uniqueViolation else .ok)
        "SC" (fun _ => "X")).1 2 rfl (by intro b hb; simp [hb]) (by decide)
  · exact (handleSubmit_retry_spec (fun _ => .uniqueViolation) "SC"
      (fun _ => "X")).2.2.1 hnone

/-- Claim C2: during an active session every tracked violation (tab
switch or fullscreen exit) increments the combined violation counter, the
session trace records for each event exactly the code's auto-submit
trigger, the trigger fires precisely when the fullscreen-exit count
exceeds 2 or the combined violation count exceeds 2 (the count after this,
the `pre.length + 1`-st, violation), and a triggered auto-submit is passed
`forceMalpractice = true`, so `malpracticeDetected` is true. -/
theorem violation_autosubmit_spec (pre : List ViolationEvent)
    (e : ViolationEvent) :
    (violationsFold initialCheatState (pre ++ [e])).violationCount
        = pre.length + 1 ∧
    (violationsFold initialCheatState (pre ++ [e])).fullscreenExitCount
        = (pre ++ [e]).count .fullscreenExit ∧
    runViolations initialCheatState (pre ++ [e])
      = runViolations initialCheatState pre ++
        [(violationsFold initialCheatState (pre ++ [e]),
          decide (2 < (violationsFold initialCheatState
              (pre ++ [e])).fullscreenExitCount) ||
            decide (2 < (violationsFold initialCheatState
              (pre ++ [e])).violationCount))] ∧
    ((decide (2 < (violationsFold initialCheatState
          (pre ++ [e])).fullscreenExitCount) ||
        decide (2 < (violationsFold initialCheatState
          (pre ++ [e])).violationCount)) = true ↔
      2 < (pre ++ [e]).count ViolationEvent.fullscreenExit ∨
        2 < pre.length + 1) ∧
    hasMalpractice true
      (violationsFold initialCheatState (pre ++ [e])).violationCount = true := by
  have hfold := violationsFold_spec (pre ++ [e]) initialCheatState
  have hvc : (violationsFold initialCheatState (pre ++ [e])).violationCount
      = pre.length + 1 := by
    rw [hfold]
    simp [initialCheatState]
  have hfs : (violationsFold initialCheatState (pre ++ [e])).fullscreenExitCount
      = (pre ++ [e]).count .fullscreenExit := by
    rw [hfold]
    simp [initialCheatState]
  refine ⟨hvc, hfs, ?_, ?_, by simp [hasMalpractice]⟩
  · have hfold1 : violationsFold initialCheatState (pre ++ [e])
        = (processViolationEvent (violationsFold initialCheatState pre) e).1 := by
      rw [violationsFold_append]
      simp [violationsFold]
    have h2 := processViolationEvent_snd (violationsFold initialCheatState pre) e
    have hp : processViolationEvent (violationsFold initialCheatState pre) e
        = (violationsFold initialCheatState (pre ++ [e]),
           decide (2 < (violationsFold initialCheatState
               (pre ++ [e])).fullscreenExitCount) ||
             decide (2 < (violationsFold initialCheatState
               (pre ++ [e])).violationCount)) := by
      rw [hfold1, ← h2]
    rw [runViolations_append_single, hp]
  · rw [hvc, hfs]
    simp

/-- Claim C5 (amended): for every multi-choice question the verdict of
`evaluateAnswer` is multiset equality of the student answer list and the
correct-answer list (equality of the two sorted lists): the verdict is
invariant under reordering of either list, and — whenever neither list
contains duplicates — it coincides with set equality together with equal
sizes; `["C","A"]` against correct `["A","C"]` is judged correct while the
strict subset `["A"]` is judged incorrect with 0 marks. -/
theorem mcqMultiple_eval_spec (cs xs : List String) (m : Int) (b : Bool) :
    ((evaluateAnswer ⟨.mcq_multiple, cs, m, b⟩ (.arr xs)).isCorrect = some true ↔
      xs.Perm cs) ∧
    (∀ xs' cs', xs.Perm xs' → cs.Perm cs' →
      evaluateAnswer ⟨.mcq_multiple, cs', m, b⟩ (.arr xs')
        = evaluateAnswer ⟨.mcq_multiple, cs, m, b⟩ (.arr xs)) ∧
    (xs.Nodup → cs.Nodup →
      ((evaluateAnswer ⟨.mcq_multiple, cs, m, b⟩ (.arr xs)).isCorrect = some true ↔
        (∀ a, a ∈ xs ↔ a ∈ cs) ∧ xs.length = cs.length)) ∧
    ((evaluateAnswer ⟨.mcq_multiple, cs, m, b⟩ (.arr xs)).marksAwarded
      = if (evaluateAnswer ⟨.mcq_multiple, cs, m, b⟩ (.arr xs)).isCorrect
            = some true then m else 0) ∧
    ((evaluateAnswer ⟨.mcq_multiple, ["A", "C"], m, b⟩
        (.arr ["C", "A"])).isCorrect = some true) ∧
    evaluateAnswer ⟨.mcq_multiple, ["A", "C"], m, b⟩ (.arr ["A"])
      = ⟨some false, 0⟩ := by
  have heval : evaluateAnswer ⟨.mcq_multiple, cs, m, b⟩ (.arr xs)
      = ⟨some (mcqMultipleIsCorrect cs xs),
         if mcqMultipleIsCorrect cs xs then m else 0⟩ := rfl
  have hiff : (evaluateAnswer ⟨.mcq_multiple, cs, m, b⟩ (.arr xs)).isCorrect
      = some true ↔ xs.Perm cs := by
    rw [heval]
    simp [mcqMultipleIsCorrect_iff_perm]
  refine ⟨hiff, ?_, ?_, ?_, ?_, ?_⟩
  · intro xs' cs' hx hc
    have hsx : xs'.insertionSort jsStringLe = xs.insertionSort jsStringLe :=
      (insertionSort_eq_iff_perm xs' xs).mpr hx.symm
    have hsc : cs'.insertionSort jsStringLe = cs.insertionSort jsStringLe :=
      (insertionSort_eq_iff_perm cs' cs).mpr hc.symm
    have hm : mcqMultipleIsCorrect cs' xs' = mcqMultipleIsCorrect cs xs := by
      simp only [mcqMultipleIsCorrect, hsx, hsc]
    have h1 : evaluateAnswer ⟨.mcq_multiple, cs', m, b⟩ (.arr xs')
        = ⟨some (mcqMultipleIsCorrect cs' xs'),
           if mcqMultipleIsCorrect cs' xs' then m else 0⟩ := rfl
    rw [h1, heval, hm]
  · intro hnx hnc
    rw [hiff]
    constructor
    · intro hperm
      exact ⟨fun a => hperm.mem_iff, hperm.length_eq⟩
    · rintro ⟨hmem, hlen⟩
      apply List.perm_of_nodup_nodup_toFinset_eq hnx hnc
      ext a
      simp [List.mem_toFinset, hmem a]
  · rw [heval]
    by_cases hV : mcqMultipleIsCorrect cs xs <;> simp [hV]
  · have h5 : (evaluateAnswer ⟨.mcq_multiple, ["A", "C"], m, b⟩
        (.arr ["C", "A"])).isCorrect
        = some (mcqMultipleIsCorrect ["A", "C"] ["C", "A"]) := rfl
    rw [h5, show mcqMultipleIsCorrect ["A", "C"] ["C", "A"] = true from by decide]
  · have h6 : evaluateAnswer ⟨.mcq_multiple, ["A", "C"], m, b⟩ (.arr ["A"])
        = ⟨some (mcqMultipleIsCorrect ["A", "C"] ["A"]),
           if mcqMultipleIsCorrect ["A", "C"] ["A"] then m else 0⟩ := rfl
    rw [h6, show mcqMultipleIsCorrect ["A", "C"] ["A"] = false from by decide]
    simp

/-- Counterexample to C5 as stated: with duplicates the sorted-list
comparison is strictly finer than "equal as a set with equal sizes" —
`["A","A","C"]` against correct `["A","C","C"]` has equal element sets and
equal lengths, yet `evaluateAnswer` judges it incorrect. -/
theorem mcqMultiple_set_equality_counterexample :
    (∀ a : String, a ∈ (["A", "A", "C"] : List String) ↔
      a ∈ (["A", "C", "C"] : List String)) ∧
    (["A", "A", "C"] : List String).length
      = (["A", "C", "C"] : List String).length ∧
    (evaluateAnswer ⟨.mcq_multiple, ["A", "C", "C"], 5, false⟩
        (.arr ["A", "A", "C"])).isCorrect = some false := by
  refine ⟨fun a => ?_, rfl, by decide⟩
  simp only [List.mem_cons, List.not_mem_nil, or_false]
  tauto

/-- Witness for C5 at concrete answer lists: `["C","A"]` vs `["A","C"]`
is correct, swapping both lists leaves the evaluation unchanged, and the
duplicate-free characterisation applies to them. -/
theorem mcqMultiple_eval_spec_witness :
    (evaluateAnswer ⟨.mcq_multiple, ["A", "C"], 5, false⟩
        (.arr ["C", "A"])).isCorrect = some true ∧
    evaluateAnswer ⟨.mcq_multiple, ["C", "A"], 5, false⟩ (.arr ["A", "C"])
      = evaluateAnswer ⟨.mcq_multiple, ["A", "C"], 5, false⟩ (.arr ["C", "A"]) ∧
    ((evaluateAnswer ⟨.mcq_multiple, ["A", "C"], 5, false⟩
        (.arr ["C", "A"])).isCorrect = some true ↔
      (∀ a, a ∈ (["C", "A"] : List String) ↔ a ∈ (["A", "C"] : List String)) ∧
      (["C", "A"] : List String).length = (["A", "C"] : List String).length) :=
  ⟨(mcqMultiple_eval_spec ["A", "C"] ["C", "A"] 5 false).1.mpr (by decide),
   (mcqMultiple_eval_spec ["A", "C"] ["C", "A"] 5 false).2.1 ["A", "C"]
     ["C", "A"] (by decide) (by decide),
   (mcqMultiple_eval_spec ["A", "C"] ["C", "A"] 5 false).2.2.1 (by decide)
     (by decide)⟩

/-- Claim C6: for a numeric question the verdict is true iff both the
stored correct answer and the student answer parse as numbers and the
parsed values are equal — and equality of finite parsed values is exact
equality of the represented rational numbers, with no tolerance; the
marks are the question's marks on a true verdict and 0 otherwise; `"3"`
against correct `"3.0"` is correct, `"abc"` is incorrect. -/
theorem numerical_eval_spec (cs : List String) (m : Int) (b : Bool)
    (ans : StudentAnswer) :
    ((evaluateAnswer ⟨.numerical, cs, m, b⟩ ans).isCorrect = some true ↔
      ∃ s c, jsParseFloat (jsToString ans) = some s ∧
        jsParseFloat (jsToStringOpt cs.head?) = some c ∧ jsNumEq s c = true) ∧
    (∀ v w : DecValue, jsNumEq (.fin v) (.fin w) = true ↔ v.toRat = w.toRat) ∧
    (evaluateAnswer ⟨.numerical, cs, m, b⟩ ans
      = if numericalIsCorrect cs ans then ⟨some true, m⟩
        else ⟨some false, 0⟩) ∧
    evaluateAnswer ⟨.numerical, ["3.0"], m, b⟩ (.str "3") = ⟨some true, m⟩ ∧
    evaluateAnswer ⟨.numerical, ["3.0"], m, b⟩ (.str "abc")
      = ⟨some false, 0⟩ := by
  have heval : evaluateAnswer ⟨.numerical, cs, m, b⟩ ans
      = ⟨some (numericalIsCorrect cs ans),
         if numericalIsCorrect cs ans then m else 0⟩ := rfl
  refine ⟨?_, jsNumEq_fin_iff, ?_, ?_, ?_⟩
  · rw [heval]
    rcases h1 : jsParseFloat (jsToString ans) with _ | s <;>
      rcases h2 : jsParseFloat (jsToStringOpt cs.head?) with _ | c <;>
      simp [numericalIsCorrect, h1, h2]
  · rw [heval]
    by_cases hV : numericalIsCorrect cs ans <;> simp [hV]
  · have h3 : evaluateAnswer ⟨.numerical, ["3.0"], m, b⟩ (.str "3")
        = ⟨some (numericalIsCorrect ["3.0"] (.str "3")),
           if numericalIsCorrect ["3.0"] (.str "3") then m else 0⟩ := rfl
    rw [h3, show numericalIsCorrect ["3.0"] (.str "3") = true from by decide]
    simp
  · have h4 : evaluateAnswer ⟨.numerical, ["3.0"], m, b⟩ (.str "abc")
        = ⟨some (numericalIsCorrect ["3.0"] (.str "abc")),
           if numericalIsCorrect ["3.0"] (.str "abc") then m else 0⟩ := rfl
    rw [h4, show numericalIsCorrect ["3.0"] (.str "abc") = false from by decide]
    simp

end EntranceTest
